import Mathlib

/-!
Shallow embedding of the Dusk voting contract (`src/contract/src/lib.rs` and
the identical logic in `src/src/lib.rs`).

Modelling conventions:
* `PublicKey` and `ContractId` are identified with `Nat` (only equality and
  ordering by raw bytes matter to the contract logic, and the byte strings are
  in bijection with their numeric values).
* `u64` and `u32` values are modelled as `Nat`; `u64::saturating_add` becomes
  `satAdd`, clamping at `U64MAX = 2 ^ 64 - 1`.  The `u32` counter
  `next_proposal_id` never overflows (it is bounded by the number of
  successful `add_proposal` calls, itself bounded by the capacity check), so
  plain `Nat` addition is faithful.
* Rust `String` descriptions are modelled as their byte lists (`List Nat`);
  `String::len` is the byte length, i.e. `List.length`.
* The two `BTreeMap`s are modelled as association lists with `BTreeMap`
  lookup/insert semantics (`alistLookup` / `alistInsert`, where insert
  replaces the value of an existing key).
* Each panicking entry point (`assert!` / `expect` / `panic!`) is modelled as
  a function into `Except VoteError _`: the host (Piecrust) rolls back all
  state changes of a panicking call, and in the source every mutation occurs
  after every check, so an error result carries no state change.  `commit`
  applies a call result to the pre-state, giving the persisted state.
* `sender_account()` (host call-stack inspection) and
  `get_token_balance` (the `balance_of` oracle call) are external
  collaborators: the resolved caller and the fetched balance are passed to
  each operation as explicit arguments.
-/

namespace Vote

/-- Maximum value of a `u64`. -/
def U64MAX : Nat := 2 ^ 64 - 1

/-- `u64::saturating_add` on the `Nat` model. -/
def satAdd (a b : Nat) : Nat := min (a + b) U64MAX

/-- `MAX_PROPOSALS` from the source. -/
def MAX_PROPOSALS : Nat := 100

/-- `MAX_PROPOSAL_DESC_LEN` from the source. -/
def MAX_PROPOSAL_DESC_LEN : Nat := 256

/-- `Account`: an externally owned account (BLS public key) or a contract. -/
inductive Account where
  | External (pk : Nat)
  | Contract (cid : Nat)
deriving DecidableEq

/-- The panic messages of the contract, as an error type. -/
inductive VoteError where
  | NotAdmin
  | CannotProposeSelf
  | NotPendingAdmin
  | NoPendingTransfer
  | MaxProposalsReached
  | DescriptionTooLong
  | ProposalNotFound
  | ContractsCannotVote
  | NoVotingPower
  | ProposalNotActive
  | AlreadyVoted
deriving DecidableEq

/-- Association-list lookup with `BTreeMap::get` semantics. -/
def alistLookup {κ α : Type} [DecidableEq κ] : List (κ × α) → κ → Option α
  | [], _ => none
  | (k, v) :: rest, q => if k = q then some v else alistLookup rest q

/-- Association-list insert with `BTreeMap::insert` semantics: replaces the
value when the key is present. -/
def alistInsert {κ α : Type} [DecidableEq κ] : List (κ × α) → κ → α → List (κ × α)
  | [], k, v => [(k, v)]
  | (k0, v0) :: rest, k, v =>
    if k0 = k then (k, v) :: rest else (k0, v0) :: alistInsert rest k v

/-- `Proposal` from the source. -/
structure Proposal where
  id : Nat
  description : List Nat
  yes_votes : Nat
  no_votes : Nat
  active : Bool
deriving DecidableEq

/-- `Proposal::default()` (Rust `Default` derives: all fields default). -/
instance : Inhabited Proposal :=
  ⟨{ id := 0, description := [], yes_votes := 0, no_votes := 0, active := false }⟩

/-- The contract state `VoteContract` from the source. -/
structure VoteContract where
  admin : Account
  pending_admin : Option Account
  token_contract : Nat
  proposals : List Proposal
  votes : List (Nat × List (Account × Nat))
  next_proposal_id : Nat
deriving DecidableEq

/-- `VoteContract::init`: sets admin and token contract, clears the pending
admin and resets the id counter.  It does not touch `proposals` or `votes`. -/
def init (s : VoteContract) (admin : Account) (token_contract : Nat) : VoteContract :=
  { s with
    admin := admin
    token_contract := token_contract
    pending_admin := none
    next_proposal_id := 0 }

/-- `VoteContract::propose_admin`. -/
def propose_admin (s : VoteContract) (caller new_admin : Account) :
    Except VoteError VoteContract :=
  if caller = s.admin then
    if new_admin = s.admin then .error .CannotProposeSelf
    else .ok { s with pending_admin := some new_admin }
  else .error .NotAdmin

/-- `VoteContract::accept_admin`. -/
def accept_admin (s : VoteContract) (caller : Account) :
    Except VoteError VoteContract :=
  match s.pending_admin with
  | none => .error .NoPendingTransfer
  | some pending =>
    if pending = caller then .ok { s with admin := caller, pending_admin := none }
    else .error .NotPendingAdmin

/-- `VoteContract::cancel_admin_proposal`. -/
def cancel_admin_proposal (s : VoteContract) (caller : Account) :
    Except VoteError VoteContract :=
  if caller = s.admin then
    match s.pending_admin with
    | none => .error .NoPendingTransfer
    | some _ => .ok { s with pending_admin := none }
  else .error .NotAdmin

/-- `self.proposals.iter().find(|p| p.id == proposal_id)`: first proposal in
list order whose id matches. -/
def findProposal : List Proposal → Nat → Option Proposal
  | [], _ => none
  | p :: rest, pid => if p.id = pid then some p else findProposal rest pid

/-- `VoteContract::add_proposal`.  On success returns the new state and the
allocated id (the returned `u32`). -/
def add_proposal (s : VoteContract) (caller : Account) (description : List Nat) :
    Except VoteError (VoteContract × Nat) :=
  if caller = s.admin then
    if s.proposals.length < MAX_PROPOSALS then
      if description.length ≤ MAX_PROPOSAL_DESC_LEN then
        let id := s.next_proposal_id
        .ok ({ s with
          next_proposal_id := id + 1
          proposals := s.proposals ++
            [{ id := id, description := description, yes_votes := 0,
               no_votes := 0, active := true }]
          votes := alistInsert s.votes id [] }, id)
      else .error .DescriptionTooLong
    else .error .MaxProposalsReached
  else .error .NotAdmin

/-- `iter_mut().find(|p| p.id == proposal_id)` followed by
`proposal.active = false`: set `active := false` on the first matching
proposal.  `none` when no proposal matches. -/
def closeFirst : List Proposal → Nat → Option (List Proposal)
  | [], _ => none
  | p :: rest, pid =>
    if p.id = pid then some ({ p with active := false } :: rest)
    else (closeFirst rest pid).map (fun l => p :: l)

/-- `VoteContract::close_proposal`. -/
def close_proposal (s : VoteContract) (caller : Account) (pid : Nat) :
    Except VoteError VoteContract :=
  if caller = s.admin then
    match closeFirst s.proposals pid with
    | none => .error .ProposalNotFound
    | some ps => .ok { s with proposals := ps }
  else .error .NotAdmin

/-- The tally mutation of `vote`: saturating add of the weight to the chosen
tally. -/
def updTally (p : Proposal) (vote_yes : Bool) (w : Nat) : Proposal :=
  if vote_yes then { p with yes_votes := satAdd p.yes_votes w }
  else { p with no_votes := satAdd p.no_votes w }

/-- Apply `updTally` to the first proposal whose id matches (the element the
source mutates through `iter_mut().find`). -/
def tallyFirst : List Proposal → Nat → Bool → Nat → List Proposal
  | [], _, _, _ => []
  | p :: rest, pid, vote_yes, w =>
    if p.id = pid then updTally p vote_yes w :: rest
    else p :: tallyFirst rest pid vote_yes w

/-- `VoteContract::vote`.  `caller` is the resolved `sender_account()`;
`balance` is the value returned by the `get_token_balance` oracle call for
the caller's public key. -/
def vote (s : VoteContract) (caller : Account) (balance : Nat) (pid : Nat)
    (vote_yes : Bool) : Except VoteError VoteContract :=
  match caller with
  | .Contract _ => .error .ContractsCannotVote
  | .External _ =>
    if 0 < balance then
      match findProposal s.proposals pid with
      | none => .error .ProposalNotFound
      | some p =>
        if p.active then
          match alistLookup s.votes pid with
          | none => .error .ProposalNotFound
          | some pvotes =>
            if (alistLookup pvotes caller).isSome then .error .AlreadyVoted
            else .ok { s with
              votes := alistInsert s.votes pid (alistInsert pvotes caller balance)
              proposals := tallyFirst s.proposals pid vote_yes balance }
        else .error .ProposalNotActive
    else .error .NoVotingPower

/-- `VoteContract::get_proposal`. -/
def get_proposal (s : VoteContract) (pid : Nat) : Option Proposal :=
  findProposal s.proposals pid

/-- `VoteContract::get_all_proposals`. -/
def get_all_proposals (s : VoteContract) : List Proposal :=
  s.proposals

/-- `VoteContract::proposal_count`. -/
def proposal_count (s : VoteContract) : Nat :=
  s.proposals.length

/-- `VoteContract::has_voted` (`voter` is the resolved caller). -/
def has_voted (s : VoteContract) (voter : Account) (pid : Nat) : Bool :=
  match alistLookup s.votes pid with
  | none => false
  | some m => (alistLookup m voter).isSome

/-- `VoteContract::has_account_voted`. -/
def has_account_voted (s : VoteContract) (pk : Nat) (pid : Nat) : Bool :=
  match alistLookup s.votes pid with
  | none => false
  | some m => (alistLookup m (Account.External pk)).isSome

/-- `VoteContract::get_vote_weight` (`voter` is the resolved caller). -/
def get_vote_weight (s : VoteContract) (voter : Account) (pid : Nat) : Nat :=
  match alistLookup s.votes pid with
  | none => 0
  | some m =>
    match alistLookup m voter with
    | none => 0
    | some w => w

/-- `VoteContract::get_account_vote_weight`. -/
def get_account_vote_weight (s : VoteContract) (pk : Nat) (pid : Nat) : Nat :=
  match alistLookup s.votes pid with
  | none => 0
  | some m =>
    match alistLookup m (Account.External pk) with
    | none => 0
    | some w => w

/-- Commit a call result against the pre-state: Piecrust persists the new
state on success and rolls back to the pre-state on panic. -/
def commit (s : VoteContract) : Except VoteError VoteContract → VoteContract
  | .ok s1 => s1
  | .error _ => s

/-- One mutating call to the deployed contract (after the one-time `init`),
with the externally-resolved caller identity and oracle balance attached. -/
inductive Op where
  | proposeAdmin (caller new_admin : Account)
  | acceptAdmin (caller : Account)
  | cancelAdmin (caller : Account)
  | addProposal (caller : Account) (description : List Nat)
  | closeProposal (caller : Account) (pid : Nat)
  | voteOp (caller : Account) (balance : Nat) (pid : Nat) (vote_yes : Bool)

/-- The persisted state after one call (panics roll back). -/
def applyOp (s : VoteContract) : Op → VoteContract
  | .proposeAdmin c n => commit s (propose_admin s c n)
  | .acceptAdmin c => commit s (accept_admin s c)
  | .cancelAdmin c => commit s (cancel_admin_proposal s c)
  | .addProposal c d =>
    match add_proposal s c d with
    | .ok (s1, _) => s1
    | .error _ => s
  | .closeProposal c pid => commit s (close_proposal s c pid)
  | .voteOp c b pid y => commit s (vote s c b pid y)

/-- The static initial `STATE` value from the source. -/
def defaultState : VoteContract :=
  { admin := .Contract 0
    pending_admin := none
    token_contract := 0
    proposals := []
    votes := []
    next_proposal_id := 0 }

/-- A freshly initialized contract: `init` run once on the static state. -/
def initialState (admin : Account) (token_contract : Nat) : VoteContract :=
  init defaultState admin token_contract

/-- Run a sequence of calls. -/
def runOps (s : VoteContract) : List Op → VoteContract
  | [] => s
  | op :: rest => runOps (applyOp s op) rest

/-- Registry invariant of claim C4: ids equal indices, the id counter equals
the number of proposals ever created (none are ever deleted, so that is the
list length), and the capacity bound holds. -/
def RegistryInv (s : VoteContract) : Prop :=
  (∀ i, i < s.proposals.length → (s.proposals.getD i default).id = i) ∧
  s.next_proposal_id = s.proposals.length ∧
  s.proposals.length ≤ MAX_PROPOSALS

/-- Invariant: every proposal present in the list has a vote map in the
ledger (the source relies on this when `vote` re-looks the proposal id up in
`votes`). -/
def VotesMapPresent (s : VoteContract) : Prop :=
  ∀ pid p, findProposal s.proposals pid = some p →
    alistLookup s.votes pid ≠ none

/-- Whether an account is externally owned. -/
def isExternal : Account → Bool
  | .External _ => true
  | .Contract _ => false

/-- Ledger invariant of claim C5: every key of every per-proposal vote map is
an `External` account. -/
def LedgerExternal (s : VoteContract) : Prop :=
  ∀ pid m a w, alistLookup s.votes pid = some m → (a, w) ∈ m →
    isExternal a = true

/-- Example state: one active proposal with id 0 (tallies 5 yes, 0 no) on
which `External 1` has already voted with weight 5. -/
def sVoted : VoteContract :=
  { admin := .External 0
    pending_admin := none
    token_contract := 0
    proposals := [{ id := 0, description := [], yes_votes := 5, no_votes := 0, active := true }]
    votes := [(0, [(.External 1, 5)])]
    next_proposal_id := 1 }

/-- The persisted state after `External 2` (balance 7) votes yes on proposal
0 of `sVoted`. -/
def sVotedPost : VoteContract :=
  commit sVoted (vote sVoted (.External 2) 7 0 true)

/-- `sVoted` with its only proposal closed. -/
def sVotedClosed : VoteContract :=
  { sVoted with
    proposals := [{ id := 0, description := [], yes_votes := 5, no_votes := 0, active := false }] }

/-- Example state: the yes tally already sits at `U64MAX`, the no tally at 5,
and nobody has voted yet. -/
def sSaturated : VoteContract :=
  { admin := .External 0
    pending_admin := none
    token_contract := 0
    proposals := [{ id := 0, description := [], yes_votes := U64MAX, no_votes := 5, active := true }]
    votes := [(0, [])]
    next_proposal_id := 1 }

/-- The persisted state after `External 1` (balance 3) votes yes on proposal
0 of `sSaturated`. -/
def sSatPost : VoteContract :=
  commit sSaturated (vote sSaturated (.External 1) 3 0 true)

/-- Example state holding 100 proposals (the capacity limit). -/
def s100 : VoteContract :=
  { admin := .External 0
    pending_admin := none
    token_contract := 0
    proposals := List.replicate 100 default
    votes := []
    next_proposal_id := 100 }

/-- Example state with a pending admin transfer to `External 2`. -/
def sPending : VoteContract :=
  { admin := .External 0
    pending_admin := some (.External 2)
    token_contract := 0
    proposals := []
    votes := []
    next_proposal_id := 0 }

/-- Example pre-`init` state that already holds a proposal with id 0, a
recorded vote on it, and an advanced id counter. -/
def sLegacy : VoteContract :=
  { admin := .External 5
    pending_admin := some (.External 6)
    token_contract := 3
    proposals := [{ id := 0, description := [2], yes_votes := 4, no_votes := 6, active := true }]
    votes := [(0, [(.External 9, 4)])]
    next_proposal_id := 1 }

/-- Call trace used as a concrete witness input: the admin creates proposal 0
and `External 1` votes yes on it with balance 5. -/
def opsWitness : List Op :=
  [Op.addProposal (.External 0) [], Op.voteOp (.External 1) 5 0 true]

/-! ### Helper lemmas about the map and list operations -/

theorem alistLookup_insert_self {κ α : Type} [DecidableEq κ]
    (l : List (κ × α)) (k : κ) (v : α) :
    alistLookup (alistInsert l k v) k = some v := by
  induction l with
  | nil => simp [alistInsert, alistLookup]
  | cons hd tl ih =>
    obtain ⟨k0, v0⟩ := hd
    by_cases h : k0 = k
    · simp [alistInsert, h, alistLookup]
    · simp [alistInsert, h, alistLookup, ih]

theorem alistLookup_insert_ne {κ α : Type} [DecidableEq κ]
    (l : List (κ × α)) (k q : κ) (v : α) (h : q ≠ k) :
    alistLookup (alistInsert l k v) q = alistLookup l q := by
  induction l with
  | nil => simp [alistInsert, alistLookup, Ne.symm h]
  | cons hd tl ih =>
    obtain ⟨k0, v0⟩ := hd
    by_cases h0 : k0 = k
    · subst h0
      simp [alistInsert, alistLookup, Ne.symm h]
    · simp [alistInsert, h0, alistLookup, ih]

theorem mem_alistInsert {κ α : Type} [DecidableEq κ]
    {l : List (κ × α)} {k : κ} {v : α} {x : κ × α}
    (hx : x ∈ alistInsert l k v) : x = (k, v) ∨ x ∈ l := by
  induction l with
  | nil => exact Or.inl (by simpa [alistInsert] using hx)
  | cons hd tl ih =>
    obtain ⟨k0, v0⟩ := hd
    by_cases h : k0 = k
    · rw [alistInsert, if_pos h] at hx
      rcases List.mem_cons.mp hx with h1 | h1
      · exact Or.inl h1
      · exact Or.inr (List.mem_cons_of_mem _ h1)
    · rw [alistInsert, if_neg h] at hx
      rcases List.mem_cons.mp hx with h1 | h1
      · exact Or.inr (h1 ▸ List.mem_cons_self _ _)
      · rcases ih h1 with h2 | h2
        · exact Or.inl h2
        · exact Or.inr (List.mem_cons_of_mem _ h2)

theorem updTally_id (p : Proposal) (y : Bool) (w : Nat) :
    (updTally p y w).id = p.id := by
  unfold updTally; split <;> rfl

theorem updTally_active (p : Proposal) (y : Bool) (w : Nat) :
    (updTally p y w).active = p.active := by
  unfold updTally; split <;> rfl

theorem tallyFirst_length (l : List Proposal) (pid : Nat) (y : Bool) (w : Nat) :
    (tallyFirst l pid y w).length = l.length := by
  induction l with
  | nil => rfl
  | cons p rest ih =>
    unfold tallyFirst
    split <;> simp [ih]

theorem tallyFirst_getD (l : List Proposal) (pid : Nat) (y : Bool) (w : Nat) (i : Nat) :
    (tallyFirst l pid y w).getD i default = updTally (l.getD i default) y w ∨
    (tallyFirst l pid y w).getD i default = l.getD i default := by
  induction l generalizing i with
  | nil => right; rfl
  | cons p rest ih =>
    unfold tallyFirst
    split
    · cases i with
      | zero => left; simp
      | succ j => right; simp
    · cases i with
      | zero => right; simp
      | succ j => simpa using ih j

theorem findProposal_tallyFirst (l : List Proposal) (pid : Nat) (y : Bool) (w : Nat) :
    findProposal (tallyFirst l pid y w) pid =
      (findProposal l pid).map (fun p => updTally p y w) := by
  induction l with
  | nil => simp [tallyFirst, findProposal]
  | cons p rest ih =>
    by_cases h : p.id = pid
    · simp [tallyFirst, h, findProposal, updTally_id]
    · simp [tallyFirst, h, findProposal, ih]

theorem findProposal_eq_none_iff (l : List Proposal) (pid : Nat) :
    findProposal l pid = none ↔ ∀ p, p ∈ l → p.id ≠ pid := by
  induction l with
  | nil => simp [findProposal]
  | cons p rest ih =>
    by_cases h : p.id = pid
    · simp [findProposal, h]
    · simp [findProposal, h, ih]

theorem closeFirst_some_of_find {l : List Proposal} {pid : Nat} {p : Proposal}
    (h : findProposal l pid = some p) :
    ∃ l1, closeFirst l pid = some l1 := by
  induction l with
  | nil => simp [findProposal] at h
  | cons q rest ih =>
    by_cases hq : q.id = pid
    · exact ⟨{ q with active := false } :: rest, by rw [closeFirst, if_pos hq]⟩
    · rw [findProposal, if_neg hq] at h
      obtain ⟨l1, hl1⟩ := ih h
      exact ⟨q :: l1, by simp [closeFirst, hq, hl1]⟩

theorem closeFirst_length {l : List Proposal} {pid : Nat} {l1 : List Proposal}
    (h : closeFirst l pid = some l1) : l1.length = l.length := by
  induction l generalizing l1 with
  | nil => simp [closeFirst] at h
  | cons q rest ih =>
    by_cases hq : q.id = pid
    · rw [closeFirst, if_pos hq] at h
      cases h
      simp
    · rw [closeFirst, if_neg hq] at h
      rcases Option.map_eq_some'.mp h with ⟨l2, hl2, rfl⟩
      simp [ih hl2]

theorem closeFirst_getD {l : List Proposal} {pid : Nat} {l1 : List Proposal}
    (h : closeFirst l pid = some l1) (i : Nat) :
    l1.getD i default = { l.getD i default with active := false } ∨
    l1.getD i default = l.getD i default := by
  induction l generalizing l1 i with
  | nil => simp [closeFirst] at h
  | cons q rest ih =>
    by_cases hq : q.id = pid
    · rw [closeFirst, if_pos hq] at h
      cases h
      cases i with
      | zero => left; simp
      | succ j => right; simp
    · rw [closeFirst, if_neg hq] at h
      rcases Option.map_eq_some'.mp h with ⟨l2, hl2, rfl⟩
      cases i with
      | zero => right; simp
      | succ j => simpa using ih hl2 j

theorem closeFirst_idem {l : List Proposal} {pid : Nat} {l1 : List Proposal}
    (h : closeFirst l pid = some l1) : closeFirst l1 pid = some l1 := by
  induction l generalizing l1 with
  | nil => simp [closeFirst] at h
  | cons q rest ih =>
    by_cases hq : q.id = pid
    · rw [closeFirst, if_pos hq] at h
      cases h
      rw [closeFirst]
      simp [hq]
    · rw [closeFirst, if_neg hq] at h
      rcases Option.map_eq_some'.mp h with ⟨l2, hl2, rfl⟩
      rw [closeFirst, if_neg hq, ih hl2]
      rfl

theorem findProposal_closeFirst {l : List Proposal} {pid : Nat}
    {l1 : List Proposal} {p : Proposal}
    (hc : closeFirst l pid = some l1) (hf : findProposal l pid = some p) :
    findProposal l1 pid = some { p with active := false } := by
  induction l generalizing l1 with
  | nil => simp [findProposal] at hf
  | cons q rest ih =>
    by_cases hq : q.id = pid
    · rw [closeFirst, if_pos hq] at hc
      rw [findProposal, if_pos hq] at hf
      cases hc
      cases hf
      rw [findProposal]
      simp [hq]
    · rw [closeFirst, if_neg hq] at hc
      rw [findProposal, if_neg hq] at hf
      rcases Option.map_eq_some'.mp hc with ⟨l2, hl2, rfl⟩
      rw [findProposal, if_neg hq]
      exact ih hl2 hf

theorem findProposal_append_singleton {l : List Proposal} {q p : Proposal}
    {pid : Nat} (h : findProposal (l ++ [q]) pid = some p) :
    findProposal l pid = some p ∨ (q.id = pid ∧ p = q) := by
  induction l with
  | nil =>
    simp only [List.nil_append] at h
    by_cases hq : q.id = pid
    · rw [findProposal, if_pos hq] at h
      exact Or.inr ⟨hq, (Option.some.inj h).symm⟩
    · rw [findProposal, if_neg hq] at h
      exact absurd h (by simp [findProposal])
  | cons r rest ih =>
    by_cases hr : r.id = pid
    · rw [List.cons_append, findProposal, if_pos hr] at h
      exact Or.inl (by rw [findProposal, if_pos hr]; exact h)
    · rw [List.cons_append, findProposal, if_neg hr] at h
      rcases ih h with h1 | h1
      · exact Or.inl (by rw [findProposal, if_neg hr]; exact h1)
      · exact Or.inr h1

theorem findProposal_isSome_tallyFirst (l : List Proposal) (pid : Nat)
    (y : Bool) (w : Nat) (q : Nat) :
    (findProposal (tallyFirst l pid y w) q).isSome =
      (findProposal l q).isSome := by
  induction l with
  | nil => rfl
  | cons r rest ih =>
    by_cases hr : r.id = pid
    · rw [tallyFirst, if_pos hr]
      by_cases hq : r.id = q
      · rw [findProposal, if_pos (by rw [updTally_id]; exact hq),
          findProposal, if_pos hq]
        rfl
      · rw [findProposal, if_neg (by rw [updTally_id]; exact hq),
          findProposal, if_neg hq]
    · rw [tallyFirst, if_neg hr]
      by_cases hq : r.id = q
      · rw [findProposal, if_pos hq, findProposal, if_pos hq]
      · rw [findProposal, if_neg hq, findProposal, if_neg hq]
        exact ih

theorem findProposal_isSome_closeFirst {l : List Proposal} {pid : Nat}
    {l1 : List Proposal} (h : closeFirst l pid = some l1) (q : Nat) :
    (findProposal l1 q).isSome = (findProposal l q).isSome := by
  induction l generalizing l1 with
  | nil => simp [closeFirst] at h
  | cons r rest ih =>
    by_cases hr : r.id = pid
    · rw [closeFirst, if_pos hr] at h
      cases h
      by_cases hq : r.id = q
      · rw [findProposal, if_pos hq, findProposal, if_pos hq]
        rfl
      · rw [findProposal, if_neg hq, findProposal, if_neg hq]
    · rw [closeFirst, if_neg hr] at h
      rcases Option.map_eq_some'.mp h with ⟨l2, hl2, rfl⟩
      by_cases hq : r.id = q
      · rw [findProposal, if_pos hq, findProposal, if_pos hq]
      · rw [findProposal, if_neg hq, findProposal, if_neg hq]
        exact ih hl2

/-! ### Inversion and shape lemmas for the operations -/

theorem propose_admin_ok_inv {s : VoteContract} {c n : Account} {s1 : VoteContract}
    (h : propose_admin s c n = .ok s1) :
    c = s.admin ∧ n ≠ s.admin ∧ s1 = { s with pending_admin := some n } := by
  unfold propose_admin at h
  split at h
  · split at h
    · exact absurd h (by simp)
    · rename_i hc hn
      exact ⟨hc, hn, (Except.ok.inj h).symm⟩
  · exact absurd h (by simp)

theorem accept_admin_ok_inv {s : VoteContract} {c : Account} {s1 : VoteContract}
    (h : accept_admin s c = .ok s1) :
    s.pending_admin = some c ∧ s1 = { s with admin := c, pending_admin := none } := by
  unfold accept_admin at h
  split at h
  · exact absurd h (by simp)
  · rename_i p hp
    split at h
    · rename_i hc
      subst hc
      exact ⟨hp, (Except.ok.inj h).symm⟩
    · exact absurd h (by simp)

theorem cancel_admin_ok_inv {s : VoteContract} {c : Account} {s1 : VoteContract}
    (h : cancel_admin_proposal s c = .ok s1) :
    c = s.admin ∧ s.pending_admin ≠ none ∧ s1 = { s with pending_admin := none } := by
  unfold cancel_admin_proposal at h
  split at h
  · rename_i hc
    split at h
    · exact absurd h (by simp)
    · rename_i p hp
      exact ⟨hc, by rw [hp]; simp, (Except.ok.inj h).symm⟩
  · exact absurd h (by simp)

theorem add_proposal_ok_inv {s : VoteContract} {c : Account} {d : List Nat}
    {s1 : VoteContract} {idr : Nat}
    (h : add_proposal s c d = .ok (s1, idr)) :
    c = s.admin ∧ s.proposals.length < MAX_PROPOSALS ∧
    d.length ≤ MAX_PROPOSAL_DESC_LEN ∧ idr = s.next_proposal_id ∧
    s1 = { s with
      next_proposal_id := s.next_proposal_id + 1
      proposals := s.proposals ++
        [{ id := s.next_proposal_id, description := d, yes_votes := 0,
           no_votes := 0, active := true }]
      votes := alistInsert s.votes s.next_proposal_id [] } := by
  unfold add_proposal at h
  split at h
  · rename_i hc
    split at h
    · rename_i hlen
      split at h
      · rename_i hdesc
        have hpair := Except.ok.inj h
        exact ⟨hc, hlen, hdesc, (congrArg Prod.snd hpair).symm,
          (congrArg Prod.fst hpair).symm⟩
      · exact absurd h (by simp)
    · exact absurd h (by simp)
  · exact absurd h (by simp)

theorem close_proposal_ok_inv {s : VoteContract} {c : Account} {pid : Nat}
    {s1 : VoteContract} (h : close_proposal s c pid = .ok s1) :
    c = s.admin ∧ ∃ l1, closeFirst s.proposals pid = some l1 ∧
      s1 = { s with proposals := l1 } := by
  unfold close_proposal at h
  split at h
  · rename_i hc
    split at h
    · exact absurd h (by simp)
    · rename_i l1 hl1
      exact ⟨hc, l1, hl1, (Except.ok.inj h).symm⟩
  · exact absurd h (by simp)

theorem vote_ok_inv {s : VoteContract} {caller : Account} {balance pid : Nat}
    {vote_yes : Bool} {s1 : VoteContract}
    (h : vote s caller balance pid vote_yes = .ok s1) :
    ∃ pk p m, caller = Account.External pk ∧ 0 < balance ∧
      findProposal s.proposals pid = some p ∧ p.active = true ∧
      alistLookup s.votes pid = some m ∧ alistLookup m caller = none ∧
      s1 = { s with
        votes := alistInsert s.votes pid (alistInsert m caller balance)
        proposals := tallyFirst s.proposals pid vote_yes balance } := by
  unfold vote at h
  split at h
  · exact absurd h (by simp)
  · rename_i pk
    split at h
    · rename_i hb
      split at h
      · exact absurd h (by simp)
      · rename_i p hfind
        split at h
        · rename_i ha
          split at h
          · exact absurd h (by simp)
          · rename_i m hm
            split at h
            · exact absurd h (by simp)
            · rename_i hv
              refine ⟨pk, p, m, rfl, hb, hfind, ha, hm,
                Option.not_isSome_iff_eq_none.mp hv, ?_⟩
              exact (Except.ok.inj h).symm
        · exact absurd h (by simp)
    · exact absurd h (by simp)

theorem vote_contract_caller (s : VoteContract) (cid balance pid : Nat) (y : Bool) :
    vote s (.Contract cid) balance pid y = .error .ContractsCannotVote :=
  rfl

theorem vote_no_power (s : VoteContract) (pk pid : Nat) (y : Bool) :
    vote s (.External pk) 0 pid y = .error .NoVotingPower :=
  rfl

theorem vote_not_found {s : VoteContract} {pk balance pid : Nat} {y : Bool}
    (hb : 0 < balance) (hfind : findProposal s.proposals pid = none) :
    vote s (.External pk) balance pid y = .error .ProposalNotFound := by
  simp only [vote, hfind, if_pos hb]

theorem vote_not_active {s : VoteContract} {pk balance pid : Nat} {y : Bool}
    {p : Proposal} (hb : 0 < balance)
    (hfind : findProposal s.proposals pid = some p) (ha : p.active = false) :
    vote s (.External pk) balance pid y = .error .ProposalNotActive := by
  simp only [vote, hfind, if_pos hb, ha]
  simp

theorem vote_already_voted {s : VoteContract} {pk balance pid : Nat} {y : Bool}
    {p : Proposal} {m : List (Account × Nat)} (hb : 0 < balance)
    (hfind : findProposal s.proposals pid = some p) (ha : p.active = true)
    (hm : alistLookup s.votes pid = some m)
    (hv : (alistLookup m (Account.External pk)).isSome = true) :
    vote s (.External pk) balance pid y = .error .AlreadyVoted := by
  simp only [vote, hfind, if_pos hb, ha, hm, hv, if_true]

theorem vote_success {s : VoteContract} {pk balance pid : Nat} {y : Bool}
    {p : Proposal} {m : List (Account × Nat)} (hb : 0 < balance)
    (hfind : findProposal s.proposals pid = some p) (ha : p.active = true)
    (hm : alistLookup s.votes pid = some m)
    (hv : alistLookup m (Account.External pk) = none) :
    vote s (.External pk) balance pid y = .ok { s with
      votes := alistInsert s.votes pid
        (alistInsert m (Account.External pk) balance)
      proposals := tallyFirst s.proposals pid y balance } := by
  simp only [vote, hfind, if_pos hb, ha, hm, hv, Option.isSome_none]
  simp

theorem vote_error_commit {s : VoteContract} {caller : Account}
    {balance pid : Nat} {vote_yes : Bool} {e : VoteError}
    (h : vote s caller balance pid vote_yes = .error e) :
    commit s (vote s caller balance pid vote_yes) = s := by
  rw [h]
  rfl

/-- The proposal list and id counter of the persisted state after one call
take one of four shapes: untouched, extended by a fresh proposal (under the
capacity bound), closed in place, or tallied in place. -/
theorem applyOp_proposals_shape (s : VoteContract) (op : Op) :
    ((applyOp s op).proposals = s.proposals ∧
      (applyOp s op).next_proposal_id = s.next_proposal_id) ∨
    (∃ d, s.proposals.length < MAX_PROPOSALS ∧
      (applyOp s op).proposals = s.proposals ++
        [{ id := s.next_proposal_id, description := d, yes_votes := 0,
           no_votes := 0, active := true }] ∧
      (applyOp s op).next_proposal_id = s.next_proposal_id + 1) ∨
    (∃ pid l1, closeFirst s.proposals pid = some l1 ∧
      (applyOp s op).proposals = l1 ∧
      (applyOp s op).next_proposal_id = s.next_proposal_id) ∨
    (∃ pid y w, (applyOp s op).proposals = tallyFirst s.proposals pid y w ∧
      (applyOp s op).next_proposal_id = s.next_proposal_id) := by
  cases op with
  | proposeAdmin c n =>
    left
    rw [applyOp]
    cases hp : propose_admin s c n with
    | error e => exact ⟨rfl, rfl⟩
    | ok s1 =>
      obtain ⟨-, -, rfl⟩ := propose_admin_ok_inv hp
      exact ⟨rfl, rfl⟩
  | acceptAdmin c =>
    left
    rw [applyOp]
    cases hp : accept_admin s c with
    | error e => exact ⟨rfl, rfl⟩
    | ok s1 =>
      obtain ⟨-, rfl⟩ := accept_admin_ok_inv hp
      exact ⟨rfl, rfl⟩
  | cancelAdmin c =>
    left
    rw [applyOp]
    cases hp : cancel_admin_proposal s c with
    | error e => exact ⟨rfl, rfl⟩
    | ok s1 =>
      obtain ⟨-, -, rfl⟩ := cancel_admin_ok_inv hp
      exact ⟨rfl, rfl⟩
  | addProposal c d =>
    rw [applyOp]
    cases hp : add_proposal s c d with
    | error e => exact Or.inl ⟨rfl, rfl⟩
    | ok pr =>
      obtain ⟨s1, idr⟩ := pr
      obtain ⟨-, hlen, -, -, rfl⟩ := add_proposal_ok_inv hp
      exact Or.inr (Or.inl ⟨d, hlen, rfl, rfl⟩)
  | closeProposal c pid =>
    rw [applyOp]
    cases hp : close_proposal s c pid with
    | error e => exact Or.inl ⟨rfl, rfl⟩
    | ok s1 =>
      obtain ⟨-, l1, hl1, rfl⟩ := close_proposal_ok_inv hp
      exact Or.inr (Or.inr (Or.inl ⟨pid, l1, hl1, rfl, rfl⟩))
  | voteOp c b pid y =>
    rw [applyOp]
    cases hv : vote s c b pid y with
    | error e => exact Or.inl ⟨rfl, rfl⟩
    | ok s1 =>
      obtain ⟨pk, p, m, -, -, -, -, -, -, rfl⟩ := vote_ok_inv hv
      exact Or.inr (Or.inr (Or.inr ⟨pid, y, b, rfl, rfl⟩))

/-- The vote ledger of the persisted state after one call is untouched,
extended with a fresh empty map, or extended with one vote by an external
account added to an existing per-proposal map. -/
theorem applyOp_votes_shape (s : VoteContract) (op : Op) :
    (applyOp s op).votes = s.votes ∨
    (∃ id, (applyOp s op).votes = alistInsert s.votes id []) ∨
    (∃ pk pid m balance, alistLookup s.votes pid = some m ∧
      (applyOp s op).votes =
        alistInsert s.votes pid (alistInsert m (Account.External pk) balance)) := by
  cases op with
  | proposeAdmin c n =>
    left
    rw [applyOp]
    cases hp : propose_admin s c n with
    | error e => rfl
    | ok s1 =>
      obtain ⟨-, -, rfl⟩ := propose_admin_ok_inv hp
      rfl
  | acceptAdmin c =>
    left
    rw [applyOp]
    cases hp : accept_admin s c with
    | error e => rfl
    | ok s1 =>
      obtain ⟨-, rfl⟩ := accept_admin_ok_inv hp
      rfl
  | cancelAdmin c =>
    left
    rw [applyOp]
    cases hp : cancel_admin_proposal s c with
    | error e => rfl
    | ok s1 =>
      obtain ⟨-, -, rfl⟩ := cancel_admin_ok_inv hp
      rfl
  | addProposal c d =>
    rw [applyOp]
    cases hp : add_proposal s c d with
    | error e => exact Or.inl rfl
    | ok pr =>
      obtain ⟨s1, idr⟩ := pr
      obtain ⟨-, -, -, -, rfl⟩ := add_proposal_ok_inv hp
      exact Or.inr (Or.inl ⟨s.next_proposal_id, rfl⟩)
  | closeProposal c pid =>
    left
    rw [applyOp]
    cases hp : close_proposal s c pid with
    | error e => rfl
    | ok s1 =>
      obtain ⟨-, l1, hl1, rfl⟩ := close_proposal_ok_inv hp
      rfl
  | voteOp c b pid y =>
    rw [applyOp]
    cases hv : vote s c b pid y with
    | error e => exact Or.inl rfl
    | ok s1 =>
      obtain ⟨pk, p, m, hpk, -, -, -, hm, -, rfl⟩ := vote_ok_inv hv
      subst hpk
      exact Or.inr (Or.inr ⟨pk, pid, m, b, hm, rfl⟩)

theorem runOps_preserve {P : VoteContract → Prop}
    (hstep : ∀ s op, P s → P (applyOp s op)) :
    ∀ (ops : List Op) (s : VoteContract), P s → P (runOps s ops)
  | [], _, h => h
  | op :: rest, s, h =>
    runOps_preserve hstep rest (applyOp s op) (hstep s op h)

theorem votesMapPresent_step (s : VoteContract) (op : Op)
    (h : VotesMapPresent s) : VotesMapPresent (applyOp s op) := by
  cases op with
  | proposeAdmin c n =>
    rw [applyOp]
    cases hp : propose_admin s c n with
    | error e => exact h
    | ok s1 =>
      obtain ⟨-, -, rfl⟩ := propose_admin_ok_inv hp
      exact h
  | acceptAdmin c =>
    rw [applyOp]
    cases hp : accept_admin s c with
    | error e => exact h
    | ok s1 =>
      obtain ⟨-, rfl⟩ := accept_admin_ok_inv hp
      exact h
  | cancelAdmin c =>
    rw [applyOp]
    cases hp : cancel_admin_proposal s c with
    | error e => exact h
    | ok s1 =>
      obtain ⟨-, -, rfl⟩ := cancel_admin_ok_inv hp
      exact h
  | addProposal c d =>
    rw [applyOp]
    cases hp : add_proposal s c d with
    | error e => exact h
    | ok pr =>
      obtain ⟨s1, idr⟩ := pr
      obtain ⟨-, -, -, -, rfl⟩ := add_proposal_ok_inv hp
      intro pid p hf
      by_cases hpid : pid = s.next_proposal_id
      · subst hpid
        rw [alistLookup_insert_self]
        simp
      · rw [alistLookup_insert_ne _ _ _ _ hpid]
        rcases findProposal_append_singleton hf with h1 | ⟨h1, -⟩
        · exact h pid p h1
        · exact absurd h1.symm hpid
  | closeProposal c pid0 =>
    rw [applyOp]
    cases hp : close_proposal s c pid0 with
    | error e => exact h
    | ok s1 =>
      obtain ⟨-, l1, hl1, rfl⟩ := close_proposal_ok_inv hp
      intro pid p hf
      simp only [commit] at hf ⊢
      have hiso := findProposal_isSome_closeFirst hl1 pid
      rw [hf] at hiso
      obtain ⟨q, hq⟩ := Option.isSome_iff_exists.mp (by rw [← hiso]; rfl)
      exact h pid q hq
  | voteOp c b pid0 y =>
    rw [applyOp]
    cases hv : vote s c b pid0 y with
    | error e => exact h
    | ok s1 =>
      obtain ⟨pk, p0, m, -, -, -, -, hm, -, rfl⟩ := vote_ok_inv hv
      intro pid p hf
      simp only [commit] at hf ⊢
      by_cases hpid : pid = pid0
      · subst hpid
        rw [alistLookup_insert_self]
        simp
      · rw [alistLookup_insert_ne _ _ _ _ hpid]
        have hiso := findProposal_isSome_tallyFirst s.proposals pid0 y b pid
        rw [hf] at hiso
        obtain ⟨q, hq⟩ := Option.isSome_iff_exists.mp (by rw [← hiso]; rfl)
        exact h pid q hq

/-- The hypothesis of the C2 theorem holds in every reachable state: every
listed proposal has a vote map in the ledger. -/
theorem votesMapPresent_reachable (a : Account) (t : Nat) (ops : List Op) :
    VotesMapPresent (runOps (initialState a t) ops) :=
  runOps_preserve votesMapPresent_step ops _
    (fun pid p hf =>
      absurd hf (by simp [initialState, init, defaultState, findProposal]))

/-! ### Claim theorems -/

/-- C1 counterexample: in `sVoted` the vote ledger already holds an entry for
`(0, External 1)`, yet a later `vote` call by that account (oracle balance 0)
fails with `NoVotingPower`, not with `AlreadyVoted` as the claim states. -/
theorem c1_counterexample :
    has_account_voted sVoted 1 0 = true ∧
    vote sVoted (.External 1) 0 0 true = .error .NoVotingPower ∧
    VoteError.NoVotingPower ≠ VoteError.AlreadyVoted :=
  ⟨rfl, rfl, by decide⟩

/-- C1 (amended): once the vote ledger holds an entry for `(pid, voter)`, any
later `vote` call by that voter on that proposal fails — with `AlreadyVoted`
whenever the checks preceding the ledger check pass (positive balance, active
proposal) — and the persisted state, hence both tallies and the recorded
weight, is exactly the pre-call state. -/
theorem c1_no_second_vote (s : VoteContract) (voter : Account)
    (balance pid : Nat) (vote_yes : Bool) (m : List (Account × Nat)) (w : Nat)
    (hm : alistLookup s.votes pid = some m) (hw : alistLookup m voter = some w) :
    (∃ e, vote s voter balance pid vote_yes = .error e) ∧
    commit s (vote s voter balance pid vote_yes) = s ∧
    (∀ pk p, voter = Account.External pk → 0 < balance →
      findProposal s.proposals pid = some p → p.active = true →
      vote s voter balance pid vote_yes = .error .AlreadyVoted) := by
  have herr : ∃ e, vote s voter balance pid vote_yes = .error e := by
    cases hres : vote s voter balance pid vote_yes with
    | error e => exact ⟨e, rfl⟩
    | ok s1 =>
      obtain ⟨pk, p, m2, hpk, hb, hfind, ha, hm2, hnone, -⟩ := vote_ok_inv hres
      rw [hm] at hm2
      obtain rfl := Option.some.inj hm2
      rw [hw] at hnone
      exact absurd hnone (by simp)
  refine ⟨herr, ?_, ?_⟩
  · obtain ⟨e, he⟩ := herr
    exact vote_error_commit he
  · intro pk p hpk hb hfind ha
    subst hpk
    exact vote_already_voted hb hfind ha hm (by rw [hw]; rfl)

/-- C1 witness: instantiating the amended claim at `sVoted`: a second vote by
`External 1` with positive balance fails with `AlreadyVoted` and the
persisted state is unchanged. -/
theorem c1_witness :
    vote sVoted (.External 1) 2 0 true = .error .AlreadyVoted ∧
    commit sVoted (vote sVoted (.External 1) 2 0 true) = sVoted := by
  have h := c1_no_second_vote sVoted (.External 1) 2 0 true
      [(.External 1, 5)] 5 rfl rfl
  exact ⟨h.2.2 1
      { id := 0, description := [], yes_votes := 5, no_votes := 0, active := true }
      rfl (by decide) rfl rfl, h.2.1⟩

/-- C2: the `vote` preconditions are checked in exactly the claimed order —
each error is returned precisely when all earlier checks pass and that check
fails — and the call is all-or-nothing: every error leaves the persisted
state exactly the pre-call state, and when all checks pass both the ledger
entry and the tally update are applied (and no other field changes).  The
hypothesis `hmap` is the reachable-state invariant that every listed
proposal has a vote map. -/
theorem c2_vote_order_atomic (s : VoteContract) (caller : Account)
    (balance pid : Nat) (vote_yes : Bool)
    (hmap : ∀ p, findProposal s.proposals pid = some p →
      alistLookup s.votes pid ≠ none) :
    (∀ cid, caller = Account.Contract cid →
      vote s caller balance pid vote_yes = .error .ContractsCannotVote) ∧
    (∀ pk, caller = Account.External pk → balance = 0 →
      vote s caller balance pid vote_yes = .error .NoVotingPower) ∧
    (∀ pk, caller = Account.External pk → 0 < balance →
      findProposal s.proposals pid = none →
      vote s caller balance pid vote_yes = .error .ProposalNotFound) ∧
    (∀ pk p, caller = Account.External pk → 0 < balance →
      findProposal s.proposals pid = some p → p.active = false →
      vote s caller balance pid vote_yes = .error .ProposalNotActive) ∧
    (∀ pk p, caller = Account.External pk → 0 < balance →
      findProposal s.proposals pid = some p → p.active = true →
      has_voted s caller pid = true →
      vote s caller balance pid vote_yes = .error .AlreadyVoted) ∧
    (∀ pk p, caller = Account.External pk → 0 < balance →
      findProposal s.proposals pid = some p → p.active = true →
      has_voted s caller pid = false →
      ∃ s1, vote s caller balance pid vote_yes = .ok s1 ∧
        has_voted s1 caller pid = true ∧
        get_vote_weight s1 caller pid = balance ∧
        s1.proposals = tallyFirst s.proposals pid vote_yes balance ∧
        s1.admin = s.admin ∧ s1.pending_admin = s.pending_admin ∧
        s1.token_contract = s.token_contract ∧
        s1.next_proposal_id = s.next_proposal_id) ∧
    (∀ e, vote s caller balance pid vote_yes = .error e →
      commit s (vote s caller balance pid vote_yes) = s) := by
  refine ⟨?_, ?_, ?_, ?_, ?_, ?_, ?_⟩
  · intro cid hc
    subst hc
    exact vote_contract_caller s cid balance pid vote_yes
  · intro pk hc hb
    subst hc
    subst hb
    exact vote_no_power s pk pid vote_yes
  · intro pk hc hb hf
    subst hc
    exact vote_not_found hb hf
  · intro pk p hc hb hf ha
    subst hc
    exact vote_not_active hb hf ha
  · intro pk p hc hb hf ha hv
    subst hc
    unfold has_voted at hv
    split at hv
    · exact absurd hv (by simp)
    · rename_i m hm
      exact vote_already_voted hb hf ha hm hv
  · intro pk p hc hb hf ha hv
    subst hc
    unfold has_voted at hv
    split at hv
    · rename_i hm
      exact absurd hm (hmap p hf)
    · rename_i m hm
      have hnone : alistLookup m (Account.External pk) = none := by
        cases hx : alistLookup m (Account.External pk) with
        | none => rfl
        | some w => rw [hx] at hv; simp at hv
      refine ⟨_, vote_success hb hf ha hm hnone, ?_, ?_, rfl, rfl, rfl, rfl, rfl⟩
      · simp [has_voted, alistLookup_insert_self]
      · simp [get_vote_weight, alistLookup_insert_self]
  · intro e he
    exact vote_error_commit he

/-- C2 witness: at `sVoted`, a caller with balance 0 is rejected with
`NoVotingPower` and the persisted state is exactly the pre-call state. -/
theorem c2_witness :
    vote sVoted (.External 2) 0 0 true = .error .NoVotingPower ∧
    commit sVoted (vote sVoted (.External 2) 0 0 true) = sVoted := by
  have h := c2_vote_order_atomic sVoted (.External 2) 0 0 true
      (fun p hp => by decide)
  exact ⟨h.2.1 2 rfl rfl, h.2.2.2.2.2.2 .NoVotingPower (h.2.1 2 rfl rfl)⟩

/-- C3 counterexample: in `sSaturated` the tallies are `U64MAX` yes and 5 no
(the pre-vote sum is `U64MAX + 5`).  A successful yes vote of weight 3
saturates only the yes tally, so the new sum is still `U64MAX + 5`, while
the claim's formula — the pre-vote sum plus the weight, saturated at the
maximum representable value — gives `U64MAX`.  The new sum also differs from
the claimed value in that it exceeds `U64MAX`. -/
theorem c3_counterexample :
    vote sSaturated (.External 1) 3 0 true = .ok sSatPost ∧
    ((get_proposal sSaturated 0).getD default).yes_votes +
      ((get_proposal sSaturated 0).getD default).no_votes = U64MAX + 5 ∧
    ((get_proposal sSatPost 0).getD default).yes_votes +
      ((get_proposal sSatPost 0).getD default).no_votes ≠
      min ((U64MAX + 5) + 3) U64MAX :=
  ⟨rfl, by decide, by decide⟩

/-- C3 (amended): after a successful vote of recorded weight `balance` on a
proposal with prior tallies `y` and `n`, the saturating increment is applied
to `yes_votes` when the vote is yes and to `no_votes` otherwise; the new
tally sum never drops below the pre-vote sum `y + n`, never exceeds
`y + n + balance`, and equals `y + n + balance` exactly unless the single
incremented tally saturates at `U64MAX`. -/
theorem c3_tally_sum (s : VoteContract) (pk balance pid : Nat) (vote_yes : Bool)
    (s1 : VoteContract) (p : Proposal)
    (hy : p.yes_votes ≤ U64MAX) (hn : p.no_votes ≤ U64MAX)
    (hfind : findProposal s.proposals pid = some p)
    (hok : vote s (.External pk) balance pid vote_yes = .ok s1) :
    ∃ p1, findProposal s1.proposals pid = some p1 ∧
      p1 = updTally p vote_yes balance ∧
      p1.yes_votes + p1.no_votes =
        (if vote_yes then satAdd p.yes_votes balance + p.no_votes
         else p.yes_votes + satAdd p.no_votes balance) ∧
      p.yes_votes + p.no_votes ≤ p1.yes_votes + p1.no_votes ∧
      p1.yes_votes + p1.no_votes ≤ p.yes_votes + p.no_votes + balance ∧
      ((vote_yes = true → p.yes_votes + balance ≤ U64MAX) →
        (vote_yes = false → p.no_votes + balance ≤ U64MAX) →
        p1.yes_votes + p1.no_votes = p.yes_votes + p.no_votes + balance) := by
  obtain ⟨pk2, p2, m, -, hb, hfind2, -, -, -, rfl⟩ := vote_ok_inv hok
  have hp2 : p2 = p := Option.some.inj (hfind2.symm.trans hfind)
  subst hp2
  refine ⟨updTally p2 vote_yes balance, ?_, rfl, ?_, ?_, ?_, ?_⟩
  · show findProposal (tallyFirst s.proposals pid vote_yes balance) pid =
      some (updTally p2 vote_yes balance)
    rw [findProposal_tallyFirst, hfind]
    rfl
  · cases vote_yes <;> simp [updTally]
  · cases vote_yes <;> simp [updTally, satAdd] <;> omega
  · cases vote_yes <;> simp [updTally, satAdd] <;> omega
  · intro h1 h2
    cases vote_yes
    · have hsat := h2 rfl
      simp only [updTally, satAdd]
      simp
      omega
    · have hsat := h1 rfl
      simp only [updTally, satAdd]
      simp
      omega

/-- C3 witness: instantiating the amended claim at `sVoted` (tallies 5 and
0): after a yes vote of weight 7 the tally sum is 12. -/
theorem c3_witness :
    ((get_proposal sVotedPost 0).getD default).yes_votes +
      ((get_proposal sVotedPost 0).getD default).no_votes = 12 := by
  have h := c3_tally_sum sVoted 2 7 0 true sVotedPost
      { id := 0, description := [], yes_votes := 5, no_votes := 0, active := true }
      (by decide) (by decide) rfl rfl
  obtain ⟨p1, hp1, -, -, -, -, hexact⟩ := h
  have hsum := hexact (fun _ => by decide) (fun _ => by decide)
  unfold get_proposal
  rw [hp1]
  simpa using hsum

theorem registryInv_step (s : VoteContract) (op : Op) (h : RegistryInv s) :
    RegistryInv (applyOp s op) := by
  obtain ⟨hid, hnext, hlen⟩ := h
  rcases applyOp_proposals_shape s op with
    ⟨hp, hn⟩ | ⟨d, hcap, hp, hn⟩ | ⟨pid, l1, hc, hp, hn⟩ | ⟨pid, y, w, hp, hn⟩
  · exact ⟨fun i hi => by rw [hp] at hi ⊢; exact hid i hi,
      by rw [hn, hp, hnext], by rw [hp]; exact hlen⟩
  · refine ⟨fun i hi => ?_, ?_, ?_⟩
    · rw [hp] at hi ⊢
      rw [List.length_append, List.length_singleton] at hi
      rcases Nat.lt_or_ge i s.proposals.length with hlt | hge
      · rw [List.getD_append _ _ _ _ hlt]
        exact hid i hlt
      · have hieq : i = s.proposals.length := by omega
        subst hieq
        rw [List.getD_append_right _ _ _ _ (le_refl _)]
        simp [hnext]
    · rw [hn, hp, List.length_append, List.length_singleton, hnext]
    · rw [hp, List.length_append, List.length_singleton]
      omega
  · refine ⟨fun i hi => ?_, ?_, ?_⟩
    · rw [hp] at hi ⊢
      rw [closeFirst_length hc] at hi
      rcases closeFirst_getD hc i with hg | hg
      · rw [hg]; exact hid i hi
      · rw [hg]; exact hid i hi
    · rw [hn, hp, closeFirst_length hc, hnext]
    · rw [hp, closeFirst_length hc]; exact hlen
  · refine ⟨fun i hi => ?_, ?_, ?_⟩
    · rw [hp] at hi ⊢
      rw [tallyFirst_length] at hi
      rcases tallyFirst_getD s.proposals pid y w i with hg | hg
      · rw [hg, updTally_id]; exact hid i hi
      · rw [hg]; exact hid i hi
    · rw [hn, hp, tallyFirst_length, hnext]
    · rw [hp, tallyFirst_length]; exact hlen

theorem registryInv_initial (a : Account) (t : Nat) :
    RegistryInv (initialState a t) :=
  ⟨fun i hi => absurd hi (by simp [initialState, init, defaultState]),
    rfl, by simp [initialState, init, defaultState, MAX_PROPOSALS]⟩

/-- C4: from a freshly initialized state, after any sequence of calls the
proposal list satisfies `proposals[i].id = i` for every index, ids are
strictly increasing with no gaps (hence never reused),
`next_proposal_id` equals the number of proposals ever created (proposals
are never deleted, so that is the list length), and the list never exceeds
the `MAX_PROPOSALS = 100` capacity. -/
theorem c4_registry_invariant (a : Account) (t : Nat) (ops : List Op) :
    RegistryInv (runOps (initialState a t) ops) ∧
    (∀ i j, i < j → j < (runOps (initialState a t) ops).proposals.length →
      ((runOps (initialState a t) ops).proposals.getD i default).id <
        ((runOps (initialState a t) ops).proposals.getD j default).id) := by
  have hinv := runOps_preserve registryInv_step ops (initialState a t)
    (registryInv_initial a t)
  refine ⟨hinv, fun i j hij hj => ?_⟩
  rw [hinv.1 i (lt_trans hij hj), hinv.1 j hj]
  exact hij

/-- C4 witness: after the concrete trace `opsWitness`, proposal 0 carries id
0 and the capacity bound holds. -/
theorem c4_witness :
    ((runOps (initialState (.External 0) 0) opsWitness).proposals.getD 0
      default).id = 0 ∧
    (runOps (initialState (.External 0) 0) opsWitness).proposals.length ≤
      MAX_PROPOSALS := by
  have h := c4_registry_invariant (.External 0) 0 opsWitness
  exact ⟨h.1.1 0 (by decide), h.1.2.2⟩

theorem ledgerExternal_step (s : VoteContract) (op : Op) (h : LedgerExternal s) :
    LedgerExternal (applyOp s op) := by
  rcases applyOp_votes_shape s op with hv | ⟨id, hv⟩ | ⟨pk, pid0, m0, bal, hm0, hv⟩
  · intro pid m x w hm hx
    rw [hv] at hm
    exact h pid m x w hm hx
  · intro pid m x w hm hx
    rw [hv] at hm
    by_cases hpid : pid = id
    · subst hpid
      rw [alistLookup_insert_self] at hm
      obtain rfl := Option.some.inj hm
      exact absurd hx (by simp)
    · rw [alistLookup_insert_ne _ _ _ _ hpid] at hm
      exact h pid m x w hm hx
  · intro pid m x w hm hx
    rw [hv] at hm
    by_cases hpid : pid = pid0
    · subst hpid
      rw [alistLookup_insert_self] at hm
      obtain rfl := Option.some.inj hm
      rcases mem_alistInsert hx with hx1 | hx1
      · rw [Prod.mk.injEq] at hx1
        rw [hx1.1]
        rfl
      · exact h pid m0 x w hm0 hx1
    · rw [alistLookup_insert_ne _ _ _ _ hpid] at hm
      exact h pid m x w hm hx

/-- C5: a contract account can never vote successfully: with a `Contract`
caller, `vote` fails with `ContractsCannotVote` before any state change (the
persisted state is the pre-call state); consequently, in every state
reachable from a freshly initialized contract, every key of every
per-proposal vote map in the ledger is an `External` account. -/
theorem c5_contracts_never_vote :
    (∀ (s : VoteContract) (cid balance pid : Nat) (vote_yes : Bool),
      vote s (.Contract cid) balance pid vote_yes =
        .error .ContractsCannotVote ∧
      commit s (vote s (.Contract cid) balance pid vote_yes) = s) ∧
    (∀ (a : Account) (t : Nat) (ops : List Op),
      LedgerExternal (runOps (initialState a t) ops)) := by
  constructor
  · intro s cid balance pid vote_yes
    exact ⟨rfl, rfl⟩
  · intro a t ops
    refine runOps_preserve ledgerExternal_step ops _ ?_
    intro pid m x w hm hx
    simp [initialState, init, defaultState, alistLookup] at hm

/-- C5 witness: on the concrete trace `opsWitness` the only ledger key is the
external account `External 1`, and a contract caller is rejected with no
state change at `sVoted`. -/
theorem c5_witness :
    isExternal (Account.External 1) = true ∧
    vote sVoted (.Contract 3) 5 0 true = .error .ContractsCannotVote ∧
    commit sVoted (vote sVoted (.Contract 3) 5 0 true) = sVoted := by
  have h := c5_contracts_never_vote
  exact ⟨h.2 (.External 0) 0 opsWitness 0 [(.External 1, 5)] (.External 1) 5
      rfl (by decide),
    (h.1 sVoted 3 5 0 true).1, (h.1 sVoted 3 5 0 true).2⟩

/-- C6: `add_proposal` succeeds exactly when the caller is the admin, fewer
than 100 proposals exist, and the description is at most 256 bytes; on
success it returns the pre-call `next_proposal_id`, increments the counter,
appends the fresh active proposal with zeroed tallies, and creates an empty
vote map for the new id; otherwise it fails with exactly the single
corresponding error (`NotAdmin`, `MaxProposalsReached`, or
`DescriptionTooLong`, checked in that order), and every failed call leaves
the persisted state — in particular the proposal count — unchanged.  The
101st call after 100 successes falls under the second conjunct since the
list then has length 100. -/
theorem c6_add_proposal_spec (s : VoteContract) (caller : Account) (d : List Nat) :
    (caller ≠ s.admin → add_proposal s caller d = .error .NotAdmin) ∧
    (caller = s.admin → ¬ s.proposals.length < MAX_PROPOSALS →
      add_proposal s caller d = .error .MaxProposalsReached) ∧
    (caller = s.admin → s.proposals.length < MAX_PROPOSALS →
      ¬ d.length ≤ MAX_PROPOSAL_DESC_LEN →
      add_proposal s caller d = .error .DescriptionTooLong) ∧
    (caller = s.admin → s.proposals.length < MAX_PROPOSALS →
      d.length ≤ MAX_PROPOSAL_DESC_LEN →
      add_proposal s caller d = .ok ({ s with
        next_proposal_id := s.next_proposal_id + 1
        proposals := s.proposals ++
          [{ id := s.next_proposal_id, description := d, yes_votes := 0,
             no_votes := 0, active := true }]
        votes := alistInsert s.votes s.next_proposal_id [] },
        s.next_proposal_id)) ∧
    (∀ e, add_proposal s caller d = .error e →
      e = .NotAdmin ∨ e = .MaxProposalsReached ∨ e = .DescriptionTooLong) ∧
    (∀ e, add_proposal s caller d = .error e →
      applyOp s (.addProposal caller d) = s) := by
  refine ⟨?_, ?_, ?_, ?_, ?_, ?_⟩
  · intro h
    unfold add_proposal
    rw [if_neg h]
  · intro hc h
    unfold add_proposal
    rw [if_pos hc, if_neg h]
  · intro hc hl h
    unfold add_proposal
    rw [if_pos hc, if_pos hl, if_neg h]
  · intro hc hl hd
    unfold add_proposal
    rw [if_pos hc, if_pos hl, if_pos hd]
  · intro e he
    unfold add_proposal at he
    split at he
    · split at he
      · split at he
        · exact absurd he (by simp)
        · exact Or.inr (Or.inr (Except.error.inj he).symm)
      · exact Or.inr (Or.inl (Except.error.inj he).symm)
    · exact Or.inl (Except.error.inj he).symm
  · intro e he
    simp only [applyOp, he]

/-- C6 witness: a non-admin call fails with `NotAdmin` and leaves the state
and the proposal count unchanged; on a full registry of 100 proposals the
admin's next call fails with `MaxProposalsReached`. -/
theorem c6_witness :
    add_proposal sVoted (.External 9) [] = .error .NotAdmin ∧
    applyOp sVoted (.addProposal (.External 9) []) = sVoted ∧
    proposal_count (applyOp sVoted (.addProposal (.External 9) [])) =
      proposal_count sVoted ∧
    add_proposal s100 (.External 0) [] = .error .MaxProposalsReached := by
  have h1 := c6_add_proposal_spec sVoted (.External 9) []
  have h2 := c6_add_proposal_spec s100 (.External 0) []
  have ha := h1.1 (by decide)
  refine ⟨ha, h1.2.2.2.2.2 .NotAdmin ha, ?_, h2.2.1 rfl (by decide)⟩
  rw [h1.2.2.2.2.2 .NotAdmin ha]

/-- C7: `accept_admin` succeeds exactly when a pending admin exists and the
caller is that pending admin, in which case `admin` becomes the caller and
`pending_admin` is cleared; it fails with `NoPendingTransfer` when no
transfer is pending and with `NotPendingAdmin` when the caller differs from
the pending admin, and every failure leaves the persisted state — in
particular `admin` — unchanged. -/
theorem c7_accept_admin_spec (s : VoteContract) (caller : Account) :
    (s.pending_admin = none →
      accept_admin s caller = .error .NoPendingTransfer) ∧
    (∀ p, s.pending_admin = some p → caller ≠ p →
      accept_admin s caller = .error .NotPendingAdmin) ∧
    (∀ p, s.pending_admin = some p → caller = p →
      accept_admin s caller =
        .ok { s with admin := caller, pending_admin := none }) ∧
    (∀ s1, accept_admin s caller = .ok s1 →
      s.pending_admin = some caller ∧
      s1 = { s with admin := caller, pending_admin := none }) ∧
    (∀ e, accept_admin s caller = .error e →
      commit s (accept_admin s caller) = s ∧
      (commit s (accept_admin s caller)).admin = s.admin) := by
  refine ⟨?_, ?_, ?_, ?_, ?_⟩
  · intro h
    unfold accept_admin
    rw [h]
  · intro p hp hne
    simp only [accept_admin, hp]
    rw [if_neg (Ne.symm hne)]
  · intro p hp he
    subst he
    simp [accept_admin, hp]
  · intro s1 hok
    exact accept_admin_ok_inv hok
  · intro e he
    rw [he]
    exact ⟨rfl, rfl⟩

/-- C7 witness (Scenario D): with `External 2` pending, `External 3` is
rejected with `NotPendingAdmin` and the admin stays `External 0`, while
`External 2` itself completes the transfer. -/
theorem c7_witness :
    accept_admin sPending (.External 3) = .error .NotPendingAdmin ∧
    commit sPending (accept_admin sPending (.External 3)) = sPending ∧
    (commit sPending (accept_admin sPending (.External 3))).admin =
      .External 0 ∧
    accept_admin sPending (.External 2) =
      .ok { sPending with admin := .External 2, pending_admin := none } := by
  have h := c7_accept_admin_spec sPending (.External 3)
  have h2 := c7_accept_admin_spec sPending (.External 2)
  have he := h.2.1 (.External 2) rfl (by decide)
  exact ⟨he, (h.2.2.2.2 .NotPendingAdmin he).1,
    ((h.2.2.2.2 .NotPendingAdmin he).2).trans rfl,
    h2.2.2.1 (.External 2) rfl rfl⟩

/-- C8: the `active` flag is one-way: across every call the proposal stored
at each index keeps its id and, once inactive, stays inactive (and the list
never shrinks); `close_proposal` succeeds whenever the caller is the admin
and the id exists — even when the proposal is already closed — setting
`active := false` on the first matching proposal, it is idempotent, and it
fails only with `NotAdmin` or `ProposalNotFound`. -/
theorem c8_close_monotone_idempotent :
    (∀ (s : VoteContract) (op : Op),
      s.proposals.length ≤ (applyOp s op).proposals.length) ∧
    (∀ (s : VoteContract) (op : Op) (i : Nat), i < s.proposals.length →
      ((applyOp s op).proposals.getD i default).id =
        (s.proposals.getD i default).id ∧
      ((s.proposals.getD i default).active = false →
        ((applyOp s op).proposals.getD i default).active = false)) ∧
    (∀ (s : VoteContract) (caller : Account) (pid : Nat) (p : Proposal),
      caller = s.admin → findProposal s.proposals pid = some p →
      close_proposal s caller pid =
        .ok { s with
          proposals := (closeFirst s.proposals pid).getD s.proposals } ∧
      findProposal ((closeFirst s.proposals pid).getD s.proposals) pid =
        some { p with active := false }) ∧
    (∀ (s : VoteContract) (caller : Account) (pid : Nat) (s1 : VoteContract),
      close_proposal s caller pid = .ok s1 →
      close_proposal s1 caller pid = .ok s1) ∧
    (∀ (s : VoteContract) (caller : Account) (pid : Nat) (e : VoteError),
      close_proposal s caller pid = .error e →
      e = .NotAdmin ∨ e = .ProposalNotFound) := by
  refine ⟨?_, ?_, ?_, ?_, ?_⟩
  · intro s op
    rcases applyOp_proposals_shape s op with
      ⟨hp, -⟩ | ⟨d, -, hp, -⟩ | ⟨pid, l1, hc, hp, -⟩ | ⟨pid, y, w, hp, -⟩
    · rw [hp]
    · rw [hp, List.length_append]
      omega
    · rw [hp, closeFirst_length hc]
    · rw [hp, tallyFirst_length]
  · intro s op i hi
    rcases applyOp_proposals_shape s op with
      ⟨hp, -⟩ | ⟨d, -, hp, -⟩ | ⟨pid, l1, hc, hp, -⟩ | ⟨pid, y, w, hp, -⟩
    · rw [hp]
      exact ⟨rfl, fun h => h⟩
    · rw [hp, List.getD_append _ _ _ _ hi]
      exact ⟨rfl, fun h => h⟩
    · rw [hp]
      rcases closeFirst_getD hc i with hg | hg
      · rw [hg]
        exact ⟨rfl, fun _ => rfl⟩
      · rw [hg]
        exact ⟨rfl, fun h => h⟩
    · rw [hp]
      rcases tallyFirst_getD s.proposals pid y w i with hg | hg
      · rw [hg, updTally_id]
        exact ⟨rfl, fun h => by rw [updTally_active]; exact h⟩
      · rw [hg]
        exact ⟨rfl, fun h => h⟩
  · intro s caller pid p hc hf
    obtain ⟨l1, hl1⟩ := closeFirst_some_of_find hf
    constructor
    · subst hc
      simp [close_proposal, hl1]
    · rw [hl1, Option.getD_some]
      exact findProposal_closeFirst hl1 hf
  · intro s caller pid s1 hok
    obtain ⟨hc, l1, hl1, rfl⟩ := close_proposal_ok_inv hok
    simp [close_proposal, hc, closeFirst_idem hl1]
  · intro s caller pid e he
    unfold close_proposal at he
    split at he
    · split at he
      · exact Or.inr (Except.error.inj he).symm
      · exact absurd he (by simp)
    · exact Or.inl (Except.error.inj he).symm

/-- C8 witness: closing the active proposal of `sVoted` succeeds and sets
`active := false`; closing it again succeeds and changes nothing. -/
theorem c8_witness :
    close_proposal sVoted (.External 0) 0 = .ok sVotedClosed ∧
    get_proposal sVotedClosed 0 =
      some { id := 0, description := [], yes_votes := 5, no_votes := 0,
             active := false } ∧
    close_proposal sVotedClosed (.External 0) 0 = .ok sVotedClosed := by
  have h := c8_close_monotone_idempotent
  have h3 := h.2.2.1 sVoted (.External 0) 0
      { id := 0, description := [], yes_votes := 5, no_votes := 0,
        active := true } rfl rfl
  have hok : close_proposal sVoted (.External 0) 0 = .ok sVotedClosed := h3.1
  exact ⟨hok, h3.2, h.2.2.2.1 sVoted (.External 0) 0 sVotedClosed hok⟩

/-- C9: the queries are pure lookups on the state (they return values, never
errors, and take no mutable access): `get_proposal` returns `none` for every
unknown id, and the vote-ledger queries return the defaults `false` / `0`
whenever the proposal has no vote map or the account has no entry in it. -/
theorem c9_query_defaults (s : VoteContract) (voter : Account) (pk pid : Nat) :
    ((∀ p, p ∈ s.proposals → p.id ≠ pid) → get_proposal s pid = none) ∧
    (alistLookup s.votes pid = none →
      has_voted s voter pid = false ∧
      has_account_voted s pk pid = false ∧
      get_vote_weight s voter pid = 0 ∧
      get_account_vote_weight s pk pid = 0) ∧
    (∀ m, alistLookup s.votes pid = some m → alistLookup m voter = none →
      has_voted s voter pid = false ∧ get_vote_weight s voter pid = 0) ∧
    (∀ m, alistLookup s.votes pid = some m →
      alistLookup m (Account.External pk) = none →
      has_account_voted s pk pid = false ∧
      get_account_vote_weight s pk pid = 0) := by
  refine ⟨?_, ?_, ?_, ?_⟩
  · intro h
    unfold get_proposal
    exact (findProposal_eq_none_iff _ _).mpr h
  · intro h
    refine ⟨?_, ?_, ?_, ?_⟩ <;>
      simp [has_voted, has_account_voted, get_vote_weight,
        get_account_vote_weight, h]
  · intro m hm hv
    constructor <;> simp [has_voted, get_vote_weight, hm, hv]
  · intro m hm hv
    constructor <;> simp [has_account_voted, get_account_vote_weight, hm, hv]

/-- C9 witness: at `sVoted`, an unknown proposal id yields `none`, and
absent vote maps or absent account entries yield `false` / `0`. -/
theorem c9_witness :
    get_proposal sVoted 7 = none ∧
    has_voted sVoted (.External 2) 9 = false ∧
    get_vote_weight sVoted (.External 2) 0 = 0 ∧
    has_account_voted sVoted 2 0 = false ∧
    get_account_vote_weight sVoted 2 9 = 0 := by
  have h0 := c9_query_defaults sVoted (.External 2) 2 7
  have h9 := c9_query_defaults sVoted (.External 2) 2 9
  have hz := c9_query_defaults sVoted (.External 2) 2 0
  exact ⟨h0.1 (by decide), (h9.2.1 rfl).1,
    (hz.2.2.1 [(.External 1, 5)] rfl rfl).2,
    (hz.2.2.2 [(.External 1, 5)] rfl rfl).1, (h9.2.1 rfl).2.2.2⟩

/-- C10: `init` sets `admin` and `token_contract` to its arguments, clears
`pending_admin`, resets `next_proposal_id` to 0, and leaves `proposals` and
`votes` untouched; consequently, re-running `init` on `sLegacy` (which
already holds a proposal with id 0 and a recorded vote) keeps that proposal
and vote while resetting the id counter, and the next `add_proposal`
allocates id 0 again, producing two proposals with the same id (and, as a
side effect of the vote-map insert, clobbering the old vote map for id 0). -/
theorem c10_init_frame :
    (∀ s a t, init s a t =
      { admin := a, pending_admin := none, token_contract := t,
        proposals := s.proposals, votes := s.votes, next_proposal_id := 0 }) ∧
    proposal_count (init sLegacy (.External 0) 7) = 1 ∧
    get_vote_weight (init sLegacy (.External 0) 7) (.External 9) 0 = 4 ∧
    add_proposal (init sLegacy (.External 0) 7) (.External 0) [] =
      .ok ({ admin := .External 0, pending_admin := none, token_contract := 7,
             proposals :=
               [{ id := 0, description := [2], yes_votes := 4, no_votes := 6,
                  active := true },
                { id := 0, description := [], yes_votes := 0, no_votes := 0,
                  active := true }],
             votes := [(0, [])], next_proposal_id := 1 }, 0) :=
  ⟨fun _ _ _ => rfl, rfl, rfl, rfl⟩

end Vote
